import Mathlib

/-!
# Verification of the `scrape_this` crawl engine (src/scrape_this.py)

Shallow embedding of the link-classification, link-extraction, filtering and
crawl-loop logic of `scrape_this.py`.  Python strings are modelled as Lean
`String` (whose kernel representation is a list of characters); Python string
methods used by the source are embedded as structurally recursive functions on
`List Char`.  The network fetcher, the DOM query capability and the
console/CLI layers are external collaborators (spec §1, §6) and are modelled
as inputs: a page is a list of anchor candidates (href attribute, text,
detected source region) plus a list of fallback href strings.
-/

namespace ScrapeThis

/-! ## String primitives (models of the Python `str` methods used) -/

/-- Model of Python `s.startswith(pat)`: `pat` is a leading run of `s`. -/
def startsWithL : List Char → List Char → Bool
  | _, [] => true
  | [], _ :: _ => false
  | c :: s, p :: ps => c == p && startsWithL s ps

/-- Model of Python `s.endswith(pat)`: `pat` is a trailing run of `s`. -/
def endsWithL (s pat : List Char) : Bool :=
  startsWithL s.reverse pat.reverse

/-- Model of Python `pat in s`: substring containment. -/
def containsL : List Char → List Char → Bool
  | [], pat => pat.isEmpty
  | c :: rest, pat => startsWithL (c :: rest) pat || containsL rest pat

/-- Whitespace characters stripped by Python `str.strip()` (ASCII subset). -/
def isPySpace (c : Char) : Bool :=
  c == ' ' || c == '\t' || c == '\n' || c == '\r'

/-- Model of Python `s.strip()`. -/
def trimL (s : List Char) : List Char :=
  ((s.dropWhile isPySpace).reverse.dropWhile isPySpace).reverse

def strStartsWith (s pat : String) : Bool := startsWithL s.data pat.data
def strEndsWith (s pat : String) : Bool := endsWithL s.data pat.data
def strContains (s pat : String) : Bool := containsL s.data pat.data
def pyStrip (s : String) : String := ⟨trimL s.data⟩

/-- Model of Python `s.lower()` (ASCII case folding, as used on URLs). -/
def pyLower (s : String) : String := ⟨s.data.map Char.toLower⟩

/-- Model of Python `s.split(',')`. -/
def splitCommaL : List Char → List Char → List String
  | [], acc => [⟨acc.reverse⟩]
  | c :: rest, acc =>
    if c == ',' then ⟨acc.reverse⟩ :: splitCommaL rest []
    else splitCommaL rest (c :: acc)

def pySplitComma (s : String) : List String := splitCommaL s.data []

/-- Model of Python `s.lstrip('.')`. -/
def pyLstripDot (s : String) : String := ⟨s.data.dropWhile (· == '.')⟩

/-- Model of Python `s.replace('www.', '')` as used in
`is_subdomain_of`/`is_same_or_subdomain`: Python `str.replace` removes EVERY
non-overlapping occurrence of the pattern, scanning left to right — not just a
leading one.  The fixed pattern `"www."` is inlined to keep the recursion
structural. -/
def stripWwwL : List Char → List Char
  | 'w' :: 'w' :: 'w' :: '.' :: rest => stripWwwL rest
  | c :: rest => c :: stripWwwL rest
  | [] => []

def pyReplaceWww (s : String) : String := ⟨stripWwwL s.data⟩

/-! ## Model of `urllib.parse` (external library collaborator)

Modelled from the spec: the source delegates URL parsing and relative-URL
resolution to `urllib.parse.urlparse` / `urljoin` (spec §4.2: "standard
relative-URL resolution rules").  The model below implements RFC-3986-style
splitting of `scheme://netloc/path?query#fragment` and resolution of
absolute, scheme-relative, root-relative, query-only, fragment-only and
path-relative references; dot-segment normalization is not modelled (no
claim exercises it). -/

structure UrlParts where
  scheme : String
  netloc : String
  path : String
  query : String
  fragment : String
  deriving DecidableEq, Repr

/-- A valid scheme is a letter followed by letters, digits, `+`, `-`, `.`. -/
def isSchemeTail (c : Char) : Bool :=
  c.isAlpha || c.isDigit || c == '+' || c == '-' || c == '.'

def validScheme : List Char → Bool
  | [] => false
  | c :: rest => c.isAlpha && rest.all isSchemeTail

/-- Split off `scheme:` when the part before the first `:` is a valid scheme
(returned lowercased, as `urlparse` does). -/
def splitScheme (s : List Char) : List Char × List Char :=
  let pre := s.takeWhile (· ≠ ':')
  if pre.length < s.length && validScheme pre then
    (pre.map Char.toLower, s.drop (pre.length + 1))
  else ([], s)

/-- Split off `//netloc` (terminated by `/`, `?` or `#`). -/
def splitNetloc (s : List Char) : List Char × List Char :=
  match s with
  | '/' :: '/' :: rest =>
    let nl := rest.takeWhile (fun c => c ≠ '/' && c ≠ '?' && c ≠ '#')
    (nl, rest.drop nl.length)
  | _ => ([], s)

/-- Split at the first occurrence of `mark`, dropping the mark. -/
def splitAtMark (mark : Char) (s : List Char) : List Char × List Char :=
  let pre := s.takeWhile (· ≠ mark)
  if pre.length < s.length then (pre, s.drop (pre.length + 1)) else (pre, [])

/-- Model of `urllib.parse.urlparse` restricted to the five components the
source reads (`params` is never used). -/
def urlparse (url : String) : UrlParts :=
  let (scheme, r1) := splitScheme url.data
  let (netloc, r2) := splitNetloc r1
  let (r3, fragment) := splitAtMark '#' r2
  let (path, query) := splitAtMark '?' r3
  { scheme := ⟨scheme⟩, netloc := ⟨netloc⟩, path := ⟨path⟩,
    query := ⟨query⟩, fragment := ⟨fragment⟩ }

/-- Directory part of a path: everything up to and including the last `/`;
`"/"` when the base path has no slash (a hierarchical http base). -/
def dirPart (p : String) : String :=
  let rev := p.data.reverse.dropWhile (· ≠ '/')
  if rev.isEmpty then "/" else ⟨rev.reverse⟩

/-- Model of `urllib.parse.urljoin` for the reference shapes the crawler
feeds it (see the section comment above). -/
def urljoin (base url : String) : String :=
  if url = "" then base
  else
    let u := urlparse url
    if u.scheme ≠ "" then url
    else
      let b := urlparse base
      if strStartsWith url "//" then b.scheme ++ ":" ++ url
      else
        let root := b.scheme ++ "://" ++ b.netloc
        if strStartsWith url "/" then root ++ url
        else if strStartsWith url "?" then root ++ b.path ++ url
        else if strStartsWith url "#" then
          root ++ b.path ++ (if b.query = "" then "" else "?" ++ b.query) ++ url
        else root ++ dirPart b.path ++ url

/-- Model of `pathlib.PurePosixPath(p).name`: the last path component,
with empty and `"."` segments dropped. -/
def pathName (p : String) : String :=
  let segs := (splitCommaSlash p.data []).filter (fun s => s ≠ "" && s ≠ ".")
  match segs.reverse with
  | [] => ""
  | n :: _ => n
where
  /-- split on `/` (same shape as `splitCommaL`). -/
  splitCommaSlash : List Char → List Char → List String
    | [], acc => [⟨acc.reverse⟩]
    | c :: rest, acc =>
      if c == '/' then ⟨acc.reverse⟩ :: splitCommaSlash rest []
      else splitCommaSlash rest (c :: acc)

/-- Index of the last `.` in the list, or `none`. -/
def lastDotIdx (s : List Char) : Option Nat :=
  match s.reverse.findIdx? (· == '.') with
  | none => none
  | some j => some (s.length - 1 - j)

/-- Model of `pathlib.PurePosixPath(p).suffix`: CPython returns
`name[i:]` for `i = name.rfind('.')` when `0 < i < len(name) - 1`,
else the empty string. -/
def pathSuffix (p : String) : String :=
  let n := (pathName p).data
  match lastDotIdx n with
  | none => ""
  | some i => if 0 < i && i < n.length - 1 then ⟨n.drop i⟩ else ""

/-! ## UrlClassifier (src/scrape_this.py lines 193–273) -/

/-- Embedding of `is_subdomain_of` (lines 193–206).  Note the source uses
`str.replace('www.', '')`, which removes every occurrence of `"www."`. -/
def is_subdomain_of (domain base_domain : String) : Bool :=
  if domain = "" || base_domain = "" || domain = base_domain then false
  else
    let domain_clean := pyReplaceWww domain
    let base_clean := pyReplaceWww base_domain
    if domain_clean = base_clean then false
    else strEndsWith domain_clean ("." ++ base_clean)

/-- Embedding of `is_same_or_subdomain` (lines 209–223). -/
def is_same_or_subdomain (domain base_domain : String) : Bool :=
  if domain = "" || base_domain = "" then false
  else
    let domain_clean := pyReplaceWww domain
    let base_clean := pyReplaceWww base_domain
    if domain_clean = base_clean then true
    else strEndsWith domain_clean ("." ++ base_clean)

/-- Extension sets of `get_link_type` (lines 236–261), with the types they
map to. -/
def image_extensions : List String :=
  [".jpg", ".jpeg", ".png", ".gif", ".bmp", ".svg", ".webp", ".ico"]
def doc_extensions : List String :=
  [".pdf", ".doc", ".docx", ".xls", ".xlsx", ".ppt", ".pptx", ".txt", ".rtf"]
def video_extensions : List String :=
  [".mp4", ".avi", ".mkv", ".mov", ".wmv", ".flv", ".webm"]
def audio_extensions : List String :=
  [".mp3", ".wav", ".flac", ".aac", ".ogg", ".wma"]
def archive_extensions : List String :=
  [".zip", ".rar", ".tar", ".gz", ".7z", ".bz2"]
def code_extensions : List String :=
  [".js", ".css", ".json", ".xml", ".html", ".htm", ".php", ".py", ".java"]

/-- Embedding of `get_link_type` (lines 226–273).  Note the API test checks
`'?' in parsed.query` (a literal `?` inside the query component, not the
presence of a query string) and runs before the no-extension test, so it also
fires for unknown extensions. -/
def get_link_type (url : String) : String :=
  let parsed := urlparse url
  let path := pyLower parsed.path
  let file_ext := pyLower (pathSuffix path)
  if image_extensions.contains file_ext then "image"
  else if doc_extensions.contains file_ext then "document"
  else if video_extensions.contains file_ext then "video"
  else if audio_extensions.contains file_ext then "audio"
  else if archive_extensions.contains file_ext then "archive"
  else if code_extensions.contains file_ext then "code"
  else if strContains parsed.query "?" || strContains path "api" then "api"
  else if file_ext = "" then "page"
  else "other"

/-! ## Link data model (dict built at lines 1078–1091) -/

structure Link where
  url : String
  text : String
  domain : String
  path : String
  query : String
  fragment : String
  is_internal : Bool
  is_subdomain : Bool
  link_type : String
  source : String
  original_href : String
  found_on_page : String
  deriving DecidableEq, Repr

/-! ## LinkFilterPipeline (lines 276–324, 1101–1123) -/

/-- Embedding of `filter_by_extensions` (lines 276–286): keep links whose
lowercased URL ends with `.` + one of the extensions. -/
def filter_by_extensions (links : List Link) (extension_filters : List String) :
    List Link :=
  links.filter fun link =>
    extension_filters.any fun ext => strEndsWith (pyLower link.url) ("." ++ ext)

/-- The `type_groups` table of `filter_by_types` (lines 294–302). -/
def type_groups : List (String × List String) :=
  [("images", ["image"]), ("documents", ["document"]), ("media", ["video", "audio"]),
   ("pages", ["page"]), ("files", ["document", "image", "video", "audio", "archive"]),
   ("code", ["code"]), ("api", ["api"])]

/-- Group expansion of `filter_by_types` (lines 305–310).  The Python set is
modelled as a list used only through membership. -/
def expandFilters (type_filters : List String) : List String :=
  type_filters.foldl
    (fun acc f =>
      match type_groups.lookup f with
      | some g => acc ++ g
      | none => acc ++ [f])
    []

/-- Embedding of `filter_by_types` (lines 289–324): the `if`/`elif` pair keeps
a link when its `link_type` is in the expanded set, or else when the lowercased
URL contains `.` + one of the raw filter tokens. -/
def filter_by_types (links : List Link) (type_filters : List String) : List Link :=
  let expanded_filters := expandFilters type_filters
  links.filter fun link =>
    expanded_filters.contains link.link_type ||
      type_filters.any fun filter_ext => strContains (pyLower link.url) ("." ++ filter_ext)

/-! ## LinkExtractor (`extract_links_from_page`, lines 1004–1098)

The DOM query capability is a collaborator (spec §4.2): a page is modelled as
the list of anchor candidates that `response.css('a')` yields — each carrying
its raw `href` attribute (`""` when absent), its raw text, and the region tag
computed by `detect_link_source` (a DOM heuristic; collaborator, spec §4.3) —
plus the raw href strings the fallback query `a::attr(href)` yields.  The
`'element'` value stored in `href_to_data` is never read downstream and is
omitted. -/

structure Anchor where
  href : String
  text : String
  source : String
  deriving DecidableEq, Repr

/-- Text and source stored per href in `href_to_data`. -/
abbrev HrefInfo := String × String

/-- Python `dict` assignment `d[k] = v`: an existing key keeps its position
and gets the new value; a new key is appended. -/
def dictInsert : List (String × HrefInfo) → String → HrefInfo → List (String × HrefInfo)
  | [], k, v => [(k, v)]
  | (a, b) :: rest, k, v =>
    if a = k then (k, v) :: rest else (a, b) :: dictInsert rest k v

/-- Python `d[k]` / key lookup on the association-list dict model. -/
def dictFind : List (String × HrefInfo) → String → Option HrefInfo
  | [], _ => none
  | (a, b) :: rest, k => if a = k then some b else dictFind rest k

/-- First pass of `extract_links_from_page` (lines 1014–1038): collect each
anchor with a truthy raw href, keyed by the stripped href, storing the
stripped text and the detected source. -/
def collectPrimary (elems : List Anchor) : List (String × HrefInfo) :=
  elems.foldl
    (fun m e => if e.href ≠ "" then dictInsert m (pyStrip e.href) (pyStrip e.text, e.source) else m)
    []

/-- Fallback pass (lines 1041–1055), run only when the first pass collected
nothing: raw href values with empty text and `unknown` source. -/
def collectFallback (hrefs : List String) : List (String × HrefInfo) :=
  hrefs.foldl
    (fun m h => if h ≠ "" then dictInsert m (pyStrip h) ("", "unknown") else m)
    []

def hrefMap (elems : List Anchor) (fallbackHrefs : List String) :
    List (String × HrefInfo) :=
  if (collectPrimary elems).isEmpty then collectFallback fallbackHrefs
  else collectPrimary elems

/-- Second pass of `extract_links_from_page` (lines 1057–1093): skip empty
hrefs and `#`/`mailto:`/`javascript:` targets, resolve to an absolute URL,
keep only `http`/`https`, and build the link record with the domain
classification of lines 1068–1076. -/
def mkLink (current_url base_domain : String) (include_subdomains : Bool)
    (href : String) (info : HrefInfo) : Option Link :=
  if href = "" then none
  else if strStartsWith href "#" || strStartsWith href "mailto:" ||
      strStartsWith href "javascript:" then none
  else
    let absolute_url := urljoin current_url href
    let parsed_url := urlparse absolute_url
    if parsed_url.scheme = "http" || parsed_url.scheme = "https" then
      let is_internal0 := parsed_url.netloc == base_domain || parsed_url.netloc == ""
      let is_subdomain := is_subdomain_of parsed_url.netloc base_domain
      let is_internal1 :=
        if is_same_or_subdomain parsed_url.netloc base_domain then true else is_internal0
      let is_internal :=
        if include_subdomains && is_subdomain then true else is_internal1
      some
        { url := absolute_url
          text := info.1
          domain := parsed_url.netloc
          path := parsed_url.path
          query := parsed_url.query
          fragment := parsed_url.fragment
          is_internal := is_internal
          is_subdomain := is_subdomain
          link_type := get_link_type absolute_url
          source := info.2
          original_href := href
          found_on_page := current_url }
    else none

/-- Embedding of `extract_links_from_page` (lines 1004–1098). -/
def extract_links_from_page (elems : List Anchor) (fallbackHrefs : List String)
    (current_url base_domain : String) (include_subdomains : Bool) : List Link :=
  (hrefMap elems fallbackHrefs).filterMap fun p =>
    mkLink current_url base_domain include_subdomains p.1 p.2

/-- Python truthiness of the optional comma-separated CLI strings
(`None` and `""` are falsy). -/
def optTruthy : Option String → Bool
  | none => false
  | some s => s ≠ ""

/-- Normalization applied to `--extensions` (line 167/1115):
`ext.strip().lower().lstrip('.')` on each comma-separated part. -/
def parseExtList (s : String) : List String :=
  (pySplitComma s).map fun e => pyLstripDot (pyLower (pyStrip e))

/-- Normalization applied to `--filter` (line 162/1120): `t.strip().lower()`. -/
def parseTypeList (s : String) : List String :=
  (pySplitComma s).map fun t => pyLower (pyStrip t)

/-- Embedding of `filter_links` (lines 1101–1123).  The `unique_only` and
`existing_links` parameters are accepted and ignored, exactly as in the
source body. -/
def filter_links (links : List Link) (internal_only external_only subdomains_only : Bool)
    (extensions filter_types : Option String) (_unique_only : Bool)
    (_existing_links : Option (List Link)) : List Link :=
  let f1 :=
    if internal_only then links.filter (·.is_internal)
    else if external_only then links.filter fun l => !l.is_internal && !l.is_subdomain
    else if subdomains_only then links.filter (·.is_subdomain)
    else links
  let f2 :=
    if optTruthy extensions then
      filter_by_extensions f1 (parseExtList (extensions.getD ""))
    else f1
  if optTruthy filter_types then
    filter_by_types f2 (parseTypeList (filter_types.getD ""))
  else f2

/-! ## CrawlEngine (`scrape`, lines 589–768)

The fetcher is a collaborator (spec §6): a web is a function from URL to
either a fetch failure (the exception message) or the fetched page content
(title plus the DOM data the extractor consumes).  `fetchLog`, `failures` and
`enqueued` are observation logs mirroring, respectively, the fetch calls
issued, the warnings printed at line 718, and the `to_visit.append` calls at
line 713. -/

structure PageContent where
  title : String
  anchors : List Anchor
  fallbackHrefs : List String

/-- The per-page record built at lines 626–697 (comment fields are gated by
`--include-comments`, an orthogonal feature not modelled here). -/
structure PageData where
  url : String
  depth : Nat
  title : String
  links_on_page : Nat
  internal_links : Nat
  external_links : Nat
  subdomain_links : Nat
  files_found : Nat
  deriving DecidableEq, Repr

/-- Crawl invocation parameters of `scrape` (spec §6; CLI parsing excluded). -/
structure ScrapeCfg where
  maxDepth : Nat
  maxPages : Nat
  includeSubdomains : Bool
  internalOnly : Bool
  externalOnly : Bool
  subdomainsOnly : Bool
  extensions : Option String
  filterTypes : Option String
  uniqueOnly : Bool

/-- The mutable crawl state of lines 591–599 plus observation logs. -/
structure CrawlState where
  toVisit : List (String × Nat)
  visited : List String
  allPages : List PageData
  allLinks : List Link
  totalPagesCrawled : Nat
  totalLinksFound : Nat
  filesFound : List Link
  fetchLog : List String
  failures : List (String × String)
  enqueued : List (String × Nat)

/-- Enqueue step of lines 704–713: under the depth bound, follow every link
classified internal (or subdomain when enabled) whose parsed path has no file
extension and whose URL is not yet visited. -/
def newFrontier (pageLinks : List Link) (visited : List String)
    (current_depth maxDepth : Nat) (include_subdomains : Bool) :
    List (String × Nat) :=
  if current_depth < maxDepth then
    (pageLinks.filter fun link =>
        (link.is_internal || (include_subdomains && link.is_subdomain)) &&
          pathSuffix (urlparse link.url).path == "" && !visited.contains link.url).map
      fun link => (link.url, current_depth + 1)
  else []

/-- `page_files` of lines 694–698 (computed only when `--extensions` is
truthy). -/
def pageFilesOf (pageLinks : List Link) (extensions : Option String) : List Link :=
  if optTruthy extensions then
    let extension_filters := parseExtList (extensions.getD "")
    pageLinks.filter fun l =>
      extension_filters.any fun ext => strEndsWith (pyLower l.url) ("." ++ ext)
  else []

/-- One successful-fetch body (lines 625–715). -/
def visitPage (cfg : ScrapeCfg) (base_domain : String) (st : CrawlState)
    (u : String) (d : Nat) (rest : List (String × Nat)) (content : PageContent) :
    CrawlState :=
  let pageLinks :=
    extract_links_from_page content.anchors content.fallbackHrefs u base_domain
      cfg.includeSubdomains
  let filteredPageLinks :=
    filter_links pageLinks cfg.internalOnly cfg.externalOnly cfg.subdomainsOnly
      cfg.extensions cfg.filterTypes cfg.uniqueOnly
      (if cfg.uniqueOnly then some st.allLinks else none)
  let pageFiles := pageFilesOf pageLinks cfg.extensions
  let pageData : PageData :=
    { url := u, depth := d, title := content.title
      links_on_page := pageLinks.length
      internal_links := (pageLinks.filter (·.is_internal)).length
      external_links := (pageLinks.filter fun l => !l.is_internal && !l.is_subdomain).length
      subdomain_links := (pageLinks.filter (·.is_subdomain)).length
      files_found := pageFiles.length }
  let enq := newFrontier pageLinks st.visited d cfg.maxDepth cfg.includeSubdomains
  { st with
      toVisit := rest ++ enq
      allLinks := st.allLinks ++ filteredPageLinks
      totalLinksFound := st.totalLinksFound + filteredPageLinks.length
      filesFound := st.filesFound ++ pageFiles
      allPages := st.allPages ++ [pageData]
      enqueued := st.enqueued ++ enq }

/-- The `while to_visit and len(visited) < max_pages` loop of lines 601–719.
Termination: a skipped item shrinks the frontier without touching `visited`;
a visited item strictly grows `visited`, which the loop guard bounds by
`max_pages`. -/
def crawlLoop (web : String → Except String PageContent) (cfg : ScrapeCfg)
    (base_domain : String) (st : CrawlState) : CrawlState :=
  match hv : st.toVisit with
  | [] => st
  | (u, d) :: rest =>
    if st.visited.length < cfg.maxPages then
      if u ∈ st.visited || d > cfg.maxDepth then
        crawlLoop web cfg base_domain { st with toVisit := rest }
      else
        let st1 :=
          { st with
              toVisit := rest
              visited := st.visited ++ [u]
              totalPagesCrawled := st.totalPagesCrawled + 1
              fetchLog := st.fetchLog ++ [u] }
        match web u with
        | .error e =>
          crawlLoop web cfg base_domain { st1 with failures := st1.failures ++ [(u, e)] }
        | .ok content =>
          crawlLoop web cfg base_domain (visitPage cfg base_domain st1 u d rest content)
    else st
termination_by (cfg.maxPages - st.visited.length, st.toVisit.length)
decreasing_by
  · rw [hv]
    exact Prod.Lex.right _ (by simp)
  · refine Prod.Lex.left _ _ ?_
    simp only [List.length_append, List.length_cons, List.length_nil]
    omega
  · refine Prod.Lex.left _ _ ?_
    simp only [visitPage, List.length_append, List.length_cons, List.length_nil]
    omega

/-- Global duplicate removal of lines 727–734 (and 171–178): keep the first
occurrence of each URL. -/
def dedupByUrl (links : List Link) : List Link :=
  (links.foldl
      (fun (acc : List String × List Link) link =>
        if acc.1.contains link.url then acc else (acc.1 ++ [link.url], acc.2 ++ [link]))
      ([], [])).2

/-- Loop portion of `scrape`: initial state of lines 589–599 (the base domain
is the netloc of the seed URL) followed by the crawl loop. -/
def scrapeCrawl (web : String → Except String PageContent) (cfg : ScrapeCfg)
    (url : String) : CrawlState :=
  crawlLoop web cfg (urlparse url).netloc
    { toVisit := [(url, 0)], visited := [], allPages := [], allLinks := []
      totalPagesCrawled := 0, totalLinksFound := 0, filesFound := []
      fetchLog := [], failures := [], enqueued := [] }

/-- `scrape` after the loop (lines 721–734): link validation is a collaborator
enrichment pass and is not modelled; global deduplication runs when
`unique_only` is set. -/
def scrapeRun (web : String → Except String PageContent) (cfg : ScrapeCfg)
    (url : String) : CrawlState :=
  let st := scrapeCrawl web cfg url
  if cfg.uniqueOnly then { st with allLinks := dedupByUrl st.allLinks } else st

/-! ## Spec-side definitions (for comparison with the embedded source) -/

inductive DomainRel
  | same
  | subdomain
  | external
  deriving DecidableEq, Repr

/-- Modelled from the spec (§4.1): strip a leading `www.` — and only a
leading one — before comparing domains. -/
def stripLeadingWwwSpec (d : String) : String :=
  if strStartsWith d "www." then ⟨d.data.drop 4⟩ else d

/-- Modelled from the spec (§4.1): `domain_relationship(domain, base)` is
`same` iff the leading-www-stripped strings are equal, `subdomain` iff they
differ and the stripped domain ends with `"." + stripped base`, else
`external`. -/
def domain_relationship_spec (d base : String) : DomainRel :=
  let dc := stripLeadingWwwSpec d
  let bc := stripLeadingWwwSpec base
  if dc = bc then .same
  else if strEndsWith dc ("." ++ bc) then .subdomain
  else .external

/-! ## Theorems -/

/-- C1.  The claim says that with `include_subdomains` disabled a link whose
domain is a proper subdomain of the base domain has `is_internal = false`.
The code disagrees: lines 1072–1073 promote every same-or-subdomain link to
`is_internal = true` unconditionally, making the `include_subdomains` test of
lines 1075–1076 redundant.  Evaluating the extractor at the failing input
(anchor `https://sub.example.com/x` on page `https://example.com/`, base
domain `example.com`, `include_subdomains = false`) produces one link with
`is_internal = true` and `is_subdomain = true`. -/
theorem extract_subdomain_internal_despite_flag :
    (extract_links_from_page [⟨"https://sub.example.com/x", "t", "content"⟩] []
          "https://example.com/" "example.com" false).map
        (fun l => (l.is_internal, l.is_subdomain)) = [(true, true)] := by
  decide

/-- C2.  The claim says the domain relationship strips a leading `www.` (and
only a leading one) from both sides.  The code uses `str.replace('www.', '')`,
which removes every occurrence; at domain `mywww.site.com` against base
`mysite.com` the code therefore reports "same" (so `is_same_or_subdomain` is
true and `is_subdomain_of` false), while the relation described by the spec is
`external`. -/
theorem www_replace_not_leading_only :
    is_same_or_subdomain "mywww.site.com" "mysite.com" = true ∧
      is_subdomain_of "mywww.site.com" "mysite.com" = false ∧
      pyReplaceWww "mywww.site.com" = "mysite.com" ∧
      domain_relationship_spec "mywww.site.com" "mysite.com" = DomainRel.external := by
  decide

/-- C3 counterexample.  The claim says a URL whose extension is in none of
the sets is classified `other`, and that a URL with no extension and a query
string is classified `api`.  The code classifies `/api/v1/data.xyz` (unknown
extension `.xyz`, path containing "api") as `api`, and `/foo?a=1` (no
extension, ordinary query string without a literal `?` inside the query
component) as `page`. -/
theorem get_link_type_claim_counterexample :
    get_link_type "https://x.com/api/v1/data.xyz" = "api" ∧
      get_link_type "https://x.com/foo?a=1" = "page" := by
  decide

/-- All six extension sets of `get_link_type`, in the order tested. -/
def allKnownExtensions : List String :=
  image_extensions ++ doc_extensions ++ video_extensions ++ audio_extensions ++
    archive_extensions ++ code_extensions

theorem image_disj : ∀ e ∈ image_extensions, e ∉ doc_extensions ∧ e ∉ video_extensions ∧
    e ∉ audio_extensions ∧ e ∉ archive_extensions ∧ e ∉ code_extensions := by decide

theorem doc_disj : ∀ e ∈ doc_extensions, e ∉ video_extensions ∧ e ∉ audio_extensions ∧
    e ∉ archive_extensions ∧ e ∉ code_extensions := by decide

theorem video_disj : ∀ e ∈ video_extensions, e ∉ audio_extensions ∧
    e ∉ archive_extensions ∧ e ∉ code_extensions := by decide

theorem audio_disj : ∀ e ∈ audio_extensions, e ∉ archive_extensions ∧
    e ∉ code_extensions := by decide

theorem archive_disj : ∀ e ∈ archive_extensions, e ∉ code_extensions := by decide

/-- The lowercased file extension `get_link_type` derives from a URL. -/
def fileExtOf (url : String) : String :=
  pyLower (pathSuffix (pyLower (urlparse url).path))

/-- The API condition of line 266: a literal `?` inside the query component,
or `"api"` as a substring of the lowercased path. -/
def apiCondOf (url : String) : Bool :=
  strContains (urlparse url).query "?" || strContains (pyLower (urlparse url).path) "api"

/-- C3 as amended.  For every URL, `get_link_type` returns the type of the
lowercased path's extension under the fixed sets (case-insensitively), and an
extension match in those sets takes priority; when no set matches — whether
the path has an unknown extension or none at all — the result is `api` iff
the query component contains a literal `?` or the path contains `"api"`
(not merely iff a query string is present), and otherwise `page` when there
is no extension and `other` when there is an unknown one. -/
theorem get_link_type_cases (url : String) :
    (get_link_type url = "image" ↔ fileExtOf url ∈ image_extensions) ∧
    (get_link_type url = "document" ↔ fileExtOf url ∈ doc_extensions) ∧
    (get_link_type url = "video" ↔ fileExtOf url ∈ video_extensions) ∧
    (get_link_type url = "audio" ↔ fileExtOf url ∈ audio_extensions) ∧
    (get_link_type url = "archive" ↔ fileExtOf url ∈ archive_extensions) ∧
    (get_link_type url = "code" ↔ fileExtOf url ∈ code_extensions) ∧
    (fileExtOf url ∉ allKnownExtensions →
      (get_link_type url = "api" ↔ apiCondOf url = true)) ∧
    (fileExtOf url ∉ allKnownExtensions → apiCondOf url = false →
      get_link_type url = if fileExtOf url = "" then "page" else "other") := by
  have hrw : get_link_type url =
      (if image_extensions.contains (fileExtOf url) then "image"
       else if doc_extensions.contains (fileExtOf url) then "document"
       else if video_extensions.contains (fileExtOf url) then "video"
       else if audio_extensions.contains (fileExtOf url) then "audio"
       else if archive_extensions.contains (fileExtOf url) then "archive"
       else if code_extensions.contains (fileExtOf url) then "code"
       else if apiCondOf url then "api"
       else if fileExtOf url = "" then "page"
       else "other") := rfl
  rw [hrw]
  simp only [List.elem_eq_mem, decide_eq_true_eq]
  split_ifs with h1 h2 h3 h4 h5 h6 h7 h8 <;>
    simp_all [allKnownExtensions] <;>
    first
      | decide
      | solve_by_elim [image_disj, doc_disj, video_disj, audio_disj, archive_disj]

/-- Witness for C3's amended theorem: at `https://x.com/nope.xyz` the
extension is in no set and the API condition is false, so the result is
`other`; at `https://x.com/a.PDF` the lowercased extension is `.pdf`, so the
result is `document` (case-insensitivity). -/
theorem get_link_type_cases_witness :
    get_link_type "https://x.com/nope.xyz" = "other" ∧
      get_link_type "https://x.com/a.PDF" = "document" := by
  constructor
  · have h := (get_link_type_cases "https://x.com/nope.xyz").2.2.2.2.2.2.2
      (by decide) (by decide)
    rw [h]
    decide
  · exact ((get_link_type_cases "https://x.com/a.PDF").2.1).mpr (by decide)

/-- C9.  Applying the extension filter `["pdf"]` and then the type filter
`["images"]` keeps exactly the links that each filter keeps on its own (the
intersection), and the result is a subsequence of the input (order
preserved). -/
theorem filter_pipeline_intersection (links : List Link) :
    filter_by_types (filter_by_extensions links ["pdf"]) ["images"] =
        links.filter (fun l =>
          decide (l ∈ filter_by_extensions links ["pdf"]) &&
            decide (l ∈ filter_by_types links ["images"])) ∧
      (filter_by_types (filter_by_extensions links ["pdf"]) ["images"]).Sublist links := by
  have h1 : filter_by_types (filter_by_extensions links ["pdf"]) ["images"] =
      links.filter (fun l =>
        ((expandFilters ["images"]).contains l.link_type ||
          (["images"].any fun ft => strContains (pyLower l.url) ("." ++ ft))) &&
        (["pdf"].any fun ext => strEndsWith (pyLower l.url) ("." ++ ext))) := by
    simp only [filter_by_types, filter_by_extensions]
    exact List.filter_filter _ _
  constructor
  · rw [h1]
    apply List.filter_congr
    intro a ha
    simp [filter_by_types, filter_by_extensions, List.mem_filter, ha]
    rw [Bool.and_comm]
  · rw [h1]
    exact List.filter_sublist links

/-- C10.  `filter_by_types` returns a subsequence of its input in the
original order (hence each input position is used at most once, and a
duplicate-free input stays duplicate-free); a link satisfying both the
type-membership test and the URL-token test is kept, with its multiplicity
unchanged — the `if`/`elif` pair never emits it twice. -/
theorem filter_by_types_no_duplicates (links : List Link) (type_filters : List String) :
    (filter_by_types links type_filters).Sublist links ∧
      (links.Nodup → (filter_by_types links type_filters).Nodup) ∧
      ∀ l ∈ links,
        (expandFilters type_filters).contains l.link_type = true →
        (type_filters.any fun ft => strContains (pyLower l.url) ("." ++ ft)) = true →
          l ∈ filter_by_types links type_filters ∧
            (filter_by_types links type_filters).count l = links.count l := by
  refine ⟨List.filter_sublist links, fun h => h.filter _, fun l hl hty hurl => ⟨?_, ?_⟩⟩
  · simp only [List.elem_eq_mem, decide_eq_true_eq] at hty
    simp [filter_by_types, List.mem_filter, hl, hty]
  · simp only [List.elem_eq_mem, decide_eq_true_eq] at hty
    simp only [filter_by_types]
    rw [List.count_filter]
    simp [hty]

/-- A concrete link matching both `filter_by_types` tests for `["images"]`:
its type is `image` and its URL contains `.images`. -/
def imagesBothLink : Link :=
  { url := "https://x.com/.images/pic", text := "", domain := "x.com"
    path := "/.images/pic", query := "", fragment := "", is_internal := true
    is_subdomain := false, link_type := "image", source := "content"
    original_href := "/.images/pic", found_on_page := "https://x.com/" }

/-- Witness for C10 at a link satisfying both tests. -/
theorem filter_by_types_no_duplicates_witness :
    imagesBothLink ∈ filter_by_types [imagesBothLink] ["images"] ∧
      (filter_by_types [imagesBothLink] ["images"]).count imagesBothLink =
        [imagesBothLink].count imagesBothLink :=
  (filter_by_types_no_duplicates [imagesBothLink] ["images"]).2.2 imagesBothLink
    (by decide) (by decide) (by decide)

/-- Inversion of `mkLink`: every produced link records the href it came from,
the first-pass text and source, the resolved URL and the page, and can only
exist when the href was nonempty, had none of the skip prefixes, and resolved
to an `http`/`https` URL. -/
theorem mkLink_inv {cur base : String} {inc : Bool} {h : String} {i : HrefInfo} {l : Link}
    (hm : mkLink cur base inc h i = some l) :
    l.original_href = h ∧ l.text = i.1 ∧ l.source = i.2 ∧ l.url = urljoin cur h ∧
      l.found_on_page = cur ∧ h ≠ "" ∧
      strStartsWith h "#" = false ∧ strStartsWith h "mailto:" = false ∧
      strStartsWith h "javascript:" = false ∧
      ((urlparse (urljoin cur h)).scheme = "http" ∨
        (urlparse (urljoin cur h)).scheme = "https") := by
  unfold mkLink at hm
  by_cases h1 : h = ""
  · rw [if_pos h1] at hm
    cases hm
  rw [if_neg h1] at hm
  by_cases h2 : (strStartsWith h "#" || strStartsWith h "mailto:" ||
      strStartsWith h "javascript:") = true
  · rw [if_pos h2] at hm
    cases hm
  rw [if_neg h2] at hm
  by_cases h3 : ((urlparse (urljoin cur h)).scheme = "http" ∨
      (urlparse (urljoin cur h)).scheme = "https")
  · simp only [Bool.or_eq_true, decide_eq_true_eq] at hm
    rw [if_pos h3] at hm
    obtain ⟨rfl⟩ := hm
    simp only [Bool.or_eq_true] at h2
    push_neg at h2
    refine ⟨rfl, rfl, rfl, rfl, rfl, h1, ?_, ?_, ?_, h3⟩
    · simpa using h2.1.1
    · simpa using h2.1.2
    · simpa using h2.2
  · exfalso
    simp only [Bool.or_eq_true, decide_eq_true_eq] at hm
    rw [if_neg h3] at hm
    cases hm

/-- C5.  Every link built by `extract_links_from_page` has a URL whose parsed
scheme is `http` or `https`, and comes from a nonempty href that does not
start with `#`, `mailto:` or `javascript:` — such anchors never yield a
link. -/
theorem extraction_scheme_and_skip (elems : List Anchor) (fallbackHrefs : List String)
    (cur base : String) (inc : Bool) (l : Link)
    (hl : l ∈ extract_links_from_page elems fallbackHrefs cur base inc) :
    ((urlparse l.url).scheme = "http" ∨ (urlparse l.url).scheme = "https") ∧
      l.original_href ≠ "" ∧
      strStartsWith l.original_href "#" = false ∧
      strStartsWith l.original_href "mailto:" = false ∧
      strStartsWith l.original_href "javascript:" = false := by
  simp only [extract_links_from_page, List.mem_filterMap] at hl
  obtain ⟨⟨h, i⟩, hmem, hmk⟩ := hl
  obtain ⟨ho, -, -, hurl, -, hne, h4, h5, h6, h7⟩ := mkLink_inv hmk
  refine ⟨by rw [hurl]; exact h7, by rw [ho]; exact hne, by rw [ho]; exact h4,
    by rw [ho]; exact h5, by rw [ho]; exact h6⟩

/-- The link the extractor builds for anchor `/about` with text `About` on
`https://site.com/`. -/
def aboutLink : Link :=
  { url := "https://site.com/about", text := "About", domain := "site.com"
    path := "/about", query := "", fragment := "", is_internal := true
    is_subdomain := false, link_type := "page", source := "content"
    original_href := "/about", found_on_page := "https://site.com/" }

/-- Witness for C5 at a concrete page with one relative anchor. -/
theorem extraction_scheme_and_skip_witness :
    ((urlparse aboutLink.url).scheme = "http" ∨ (urlparse aboutLink.url).scheme = "https") ∧
      aboutLink.original_href ≠ "" ∧
      strStartsWith aboutLink.original_href "#" = false ∧
      strStartsWith aboutLink.original_href "mailto:" = false ∧
      strStartsWith aboutLink.original_href "javascript:" = false :=
  extraction_scheme_and_skip [⟨"/about", "About", "content"⟩] [] "https://site.com/"
    "site.com" false aboutLink (by decide)

/-- C7.  A pair enters the frontier through the enqueue step only when the
current depth is strictly below `max_depth` and it is `(url, depth + 1)` for a
page link that is classified internal (or subdomain with
`include_subdomains`), whose parsed path has no file extension, and whose URL
is not yet visited — so a link with a file extension is never enqueued. -/
theorem newFrontier_inv (pageLinks : List Link) (visited : List String)
    (d maxD : Nat) (inc : Bool) (p : String × Nat)
    (hp : p ∈ newFrontier pageLinks visited d maxD inc) :
    d < maxD ∧ ∃ l ∈ pageLinks, p = (l.url, d + 1) ∧
      (l.is_internal = true ∨ (inc = true ∧ l.is_subdomain = true)) ∧
      pathSuffix (urlparse l.url).path = "" ∧ l.url ∉ visited := by
  unfold newFrontier at hp
  split_ifs at hp with hd
  · refine ⟨hd, ?_⟩
    simp only [List.mem_map, List.mem_filter] at hp
    obtain ⟨l, ⟨hl, hcond⟩, rfl⟩ := hp
    simp only [Bool.and_eq_true, Bool.or_eq_true, Bool.not_eq_true', beq_iff_eq] at hcond
    obtain ⟨⟨hint, hsuf⟩, hvis⟩ := hcond
    refine ⟨l, hl, rfl, hint, hsuf, ?_⟩
    intro hmem
    simp [List.contains, List.elem_eq_mem, hmem] at hvis
  · cases hp

/-- Witness for C7 at a one-link frontier step below the depth bound. -/
theorem newFrontier_inv_witness :
    0 < 2 ∧ ∃ l ∈ [aboutLink], ("https://site.com/about", 1) = (l.url, 0 + 1) ∧
      (l.is_internal = true ∨ (false = true ∧ l.is_subdomain = true)) ∧
      pathSuffix (urlparse l.url).path = "" ∧ l.url ∉ ([] : List String) :=
  newFrontier_inv [aboutLink] [] 0 2 false ("https://site.com/about", 1) (by decide)

/-- The text and source of the last anchor with a truthy href stripping to `h`. -/
def lastInfo (elems : List Anchor) (h : String) : Option HrefInfo :=
  elems.foldl
    (fun acc e =>
      if e.href ≠ "" ∧ pyStrip e.href = h then some (pyStrip e.text, e.source) else acc)
    none

theorem dictFind_dictInsert (m : List (String × HrefInfo)) (k k' : String) (v : HrefInfo) :
    dictFind (dictInsert m k v) k' = if k' = k then some v else dictFind m k' := by
  induction m with
  | nil => simp [dictInsert, dictFind, eq_comm]
  | cons p rest ih =>
    obtain ⟨a, b⟩ := p
    by_cases hak : a = k
    · subst hak
      rcases eq_or_ne a k' with h | h
      · subst h
        simp [dictInsert, dictFind]
      · simp [dictInsert, dictFind, h, Ne.symm h]
    · rcases eq_or_ne a k' with h | h
      · subst h
        simp [dictInsert, dictFind, hak, Ne.symm hak]
      · simp [dictInsert, dictFind, hak, h, Ne.symm h, ih]

theorem mem_keys_dictInsert (m : List (String × HrefInfo)) (k x : String) (v : HrefInfo) :
    x ∈ (dictInsert m k v).map (·.1) → x ∈ m.map (·.1) ∨ x = k := by
  induction m with
  | nil => simp [dictInsert]
  | cons p rest ih =>
    obtain ⟨a, b⟩ := p
    by_cases hak : a = k
    · subst hak
      have hins : dictInsert ((a, b) :: rest) a v = (a, v) :: rest := by
        simp [dictInsert]
      rw [hins]
      simp only [List.map_cons, List.mem_cons]
      rintro (rfl | hx)
      · exact Or.inr rfl
      · exact Or.inl (Or.inr hx)
    · have hins : dictInsert ((a, b) :: rest) k v = (a, b) :: dictInsert rest k v := by
        simp [dictInsert, hak]
      rw [hins]
      simp only [List.map_cons, List.mem_cons]
      rintro (rfl | hx)
      · exact Or.inl (Or.inl rfl)
      · rcases ih hx with h | h
        · exact Or.inl (Or.inr h)
        · exact Or.inr h

theorem keys_nodup_dictInsert (m : List (String × HrefInfo)) (k : String) (v : HrefInfo)
    (hm : (m.map (·.1)).Nodup) : ((dictInsert m k v).map (·.1)).Nodup := by
  induction m with
  | nil => simp [dictInsert]
  | cons p rest ih =>
    obtain ⟨a, b⟩ := p
    simp only [List.map_cons, List.nodup_cons] at hm
    by_cases hak : a = k
    · subst hak
      simpa [dictInsert] using hm
    · have hins : dictInsert ((a, b) :: rest) k v = (a, b) :: dictInsert rest k v := by
        simp [dictInsert, hak]
      rw [hins]
      simp only [List.map_cons, List.nodup_cons]
      refine ⟨?_, ih hm.2⟩
      intro hmem
      rcases mem_keys_dictInsert rest k a v hmem with h | h
      · exact hm.1 h
      · exact hak h

theorem dictFind_of_mem_nodup (m : List (String × HrefInfo)) (k : String) (v : HrefInfo)
    (hm : (m.map (·.1)).Nodup) (hkv : (k, v) ∈ m) : dictFind m k = some v := by
  induction m with
  | nil => cases hkv
  | cons p rest ih =>
    obtain ⟨a, b⟩ := p
    simp only [List.map_cons, List.nodup_cons] at hm
    rcases List.mem_cons.mp hkv with he | hrest
    · cases he
      simp [dictFind]
    · have hne : a ≠ k := by
        rintro rfl
        exact hm.1 (List.mem_map.mpr ⟨(a, v), hrest, rfl⟩)
      simp [dictFind, hne, ih hm.2 hrest]



theorem dictFind_collect_step (elems : List Anchor) (m : List (String × HrefInfo))
    (h : String) :
    dictFind (elems.foldl
      (fun m e =>
        if e.href ≠ "" then dictInsert m (pyStrip e.href) (pyStrip e.text, e.source) else m)
      m) h =
    elems.foldl
      (fun acc e =>
        if e.href ≠ "" ∧ pyStrip e.href = h then some (pyStrip e.text, e.source) else acc)
      (dictFind m h) := by
  induction elems generalizing m with
  | nil => rfl
  | cons e rest ih =>
    simp only [List.foldl_cons]
    rw [ih]
    congr 1
    by_cases he : e.href = ""
    · simp [he]
    · rw [if_pos he, dictFind_dictInsert]
      by_cases hh : h = pyStrip e.href
      · simp [hh, he]
      · simp [hh, he, Ne.symm hh]

theorem dictFind_collectPrimary (elems : List Anchor) (h : String) :
    dictFind (collectPrimary elems) h = lastInfo elems h := by
  unfold collectPrimary lastInfo
  simpa [dictFind] using dictFind_collect_step elems [] h

theorem keys_nodup_collectPrimary_go (elems : List Anchor)
    (m : List (String × HrefInfo)) (hm : (m.map (·.1)).Nodup) :
    ((elems.foldl
        (fun m e =>
          if e.href ≠ "" then dictInsert m (pyStrip e.href) (pyStrip e.text, e.source) else m)
        m).map (·.1)).Nodup := by
  induction elems generalizing m with
  | nil => exact hm
  | cons e rest ih =>
    simp only [List.foldl_cons]
    by_cases he : e.href = ""
    · rw [if_neg (by simp [he])]
      exact ih m hm
    · rw [if_pos he]
      exact ih _ (keys_nodup_dictInsert m _ _ hm)

theorem keys_nodup_collectFallback_go (hrefs : List String)
    (m : List (String × HrefInfo)) (hm : (m.map (·.1)).Nodup) :
    ((hrefs.foldl
        (fun m h => if h ≠ "" then dictInsert m (pyStrip h) ("", "unknown") else m)
        m).map (·.1)).Nodup := by
  induction hrefs generalizing m with
  | nil => exact hm
  | cons h rest ih =>
    simp only [List.foldl_cons]
    by_cases he : h = ""
    · rw [if_neg (by simp [he])]
      exact ih m hm
    · rw [if_pos he]
      exact ih _ (keys_nodup_dictInsert m _ _ hm)

theorem keys_nodup_hrefMap (elems : List Anchor) (fallbackHrefs : List String) :
    ((hrefMap elems fallbackHrefs).map (·.1)).Nodup := by
  unfold hrefMap
  split_ifs
  · exact keys_nodup_collectFallback_go fallbackHrefs [] (by simp)
  · exact keys_nodup_collectPrimary_go elems [] (by simp)

theorem extraction_orig_mem {cur base : String} {inc : Bool}
    {m : List (String × HrefInfo)} {l : Link}
    (hl : l ∈ m.filterMap fun p => mkLink cur base inc p.1 p.2) :
    l.original_href ∈ m.map (·.1) := by
  obtain ⟨⟨k, v⟩, hkv, hmk⟩ := List.mem_filterMap.mp hl
  rw [(mkLink_inv hmk).1]
  exact List.mem_map.mpr ⟨(k, v), hkv, rfl⟩

theorem filterMap_proj_nodup (cur base : String) (inc : Bool)
    (m : List (String × HrefInfo)) (hm : (m.map (·.1)).Nodup) :
    ((m.filterMap fun p => mkLink cur base inc p.1 p.2).map (·.original_href)).Nodup := by
  induction m with
  | nil => simp
  | cons p rest ih =>
    obtain ⟨k, v⟩ := p
    simp only [List.map_cons, List.nodup_cons] at hm
    simp only [List.filterMap_cons]
    cases hmk : mkLink cur base inc k v with
    | none => exact ih hm.2
    | some l =>
      simp only [List.map_cons, List.nodup_cons]
      refine ⟨?_, ih hm.2⟩
      intro hmem
      obtain ⟨l', hl', hproj⟩ := List.mem_map.mp hmem
      have horig : l'.original_href ∈ rest.map (·.1) := extraction_orig_mem hl'
      rw [hproj, (mkLink_inv hmk).1] at horig
      exact hm.1 horig

/-- C4 as amended.  Within one page, extraction collapses candidates by their
stripped raw href before building Link records: each href yields at most one
Link (the projection to `original_href` has no duplicates), and when the
primary pass collected anything, the Link built for an href carries the text
and source of the LAST anchor with that (stripped) href — dict assignment
overwrites, so last-seen wins, not first-seen.  (The fallback pass runs only
when the primary pass collected nothing, and all its candidates carry empty
text and `unknown` source.) -/
theorem extraction_collapses_by_href (elems : List Anchor) (fallbackHrefs : List String)
    (cur base : String) (inc : Bool) :
    ((extract_links_from_page elems fallbackHrefs cur base inc).map
        (·.original_href)).Nodup ∧
      (collectPrimary elems ≠ [] →
        ∀ l ∈ extract_links_from_page elems fallbackHrefs cur base inc,
          lastInfo elems l.original_href = some (l.text, l.source)) := by
  constructor
  · exact filterMap_proj_nodup cur base inc _ (keys_nodup_hrefMap elems fallbackHrefs)
  · intro hne l hl
    have hm : hrefMap elems fallbackHrefs = collectPrimary elems := by
      unfold hrefMap
      rw [if_neg (by simpa [List.isEmpty_iff] using hne)]
    simp only [extract_links_from_page, hm] at hl
    obtain ⟨⟨k, v⟩, hkv, hmk⟩ := List.mem_filterMap.mp hl
    obtain ⟨ho, ht, hs, -⟩ := mkLink_inv hmk
    have hfind : dictFind (collectPrimary elems) k = some v :=
      dictFind_of_mem_nodup _ _ _ (keys_nodup_collectPrimary_go elems [] (by simp)) hkv
    rw [ho, ← dictFind_collectPrimary, hfind, ht, hs]

/-- C4 counterexample.  On a page where href `https://site.com/a` occurs
twice, first with text `first` / source `content` and then with text `second`
/ source `nav`, the output contains exactly one Link for that href and it
carries the SECOND (last-seen) text and source, contradicting the claim that
the first-seen text and source win. -/
theorem extraction_first_seen_counterexample :
    (extract_links_from_page
          [⟨"https://site.com/a", "first", "content"⟩,
            ⟨"https://site.com/a", "second", "nav"⟩]
          [] "https://site.com/" "site.com" false).map (fun l => (l.text, l.source)) =
      [("second", "nav")] := by
  decide

/-- The single link the extractor builds for the duplicated-href page. -/
def dupHrefLink : Link :=
  { url := "https://site.com/a", text := "second", domain := "site.com"
    path := "/a", query := "", fragment := "", is_internal := true
    is_subdomain := false, link_type := "page", source := "nav"
    original_href := "https://site.com/a", found_on_page := "https://site.com/" }

/-- Witness for C4's amended theorem at the duplicated-href page. -/
theorem extraction_collapses_by_href_witness :
    lastInfo
        [⟨"https://site.com/a", "first", "content"⟩,
          ⟨"https://site.com/a", "second", "nav"⟩]
        dupHrefLink.original_href = some (dupHrefLink.text, dupHrefLink.source) :=
  (extraction_collapses_by_href
      [⟨"https://site.com/a", "first", "content"⟩,
        ⟨"https://site.com/a", "second", "nav"⟩]
      [] "https://site.com/" "site.com" false).2 (by decide) dupHrefLink (by decide)


theorem crawlLoop_stop (web : String → Except String PageContent) (cfg : ScrapeCfg)
    (base : String) (st : CrawlState) (h : cfg.maxPages ≤ st.visited.length) :
    crawlLoop web cfg base st = st := by
  rw [crawlLoop.eq_def]
  split
  · rfl
  · rw [if_neg (by omega)]

theorem scrapeCrawl_first_step (web : String → Except String PageContent)
    (cfg : ScrapeCfg) (seed : String) (hpages : 0 < cfg.maxPages) :
    scrapeCrawl web cfg seed =
      match web seed with
      | .error e =>
        crawlLoop web cfg (urlparse seed).netloc
          { toVisit := [], visited := [seed], allPages := [], allLinks := []
            totalPagesCrawled := 1, totalLinksFound := 0, filesFound := []
            fetchLog := [seed], failures := [(seed, e)], enqueued := [] }
      | .ok content =>
        crawlLoop web cfg (urlparse seed).netloc
          (visitPage cfg (urlparse seed).netloc
            { toVisit := [], visited := [seed], allPages := [], allLinks := []
              totalPagesCrawled := 1, totalLinksFound := 0, filesFound := []
              fetchLog := [seed], failures := [], enqueued := [] }
            seed 0 [] content) := by
  rw [scrapeCrawl, crawlLoop.eq_def]
  have hguard : ((0 : Nat) < cfg.maxPages) := hpages
  simp only [List.length_nil, hguard, if_true, List.not_mem_nil, Nat.not_lt_zero,
    decide_False, Bool.or_self, Bool.false_eq_true, if_false]
  rcases web seed with e | c <;> rfl

theorem crawlLoop_nil (web : String → Except String PageContent) (cfg : ScrapeCfg)
    (base : String) (st : CrawlState) (h : st.toVisit = []) :
    crawlLoop web cfg base st = st := by
  rw [crawlLoop.eq_def, h]

/-- C6.  The crawl loop always terminates (`crawlLoop` is a total function,
proved by the lexicographic measure on `(maxPages - |visited|, |frontier|)`);
with `max_depth = 0` it visits exactly the seed page and enqueues nothing,
and with `max_pages = 1` exactly one page is ever fetched regardless of
depth.  The `0 < maxPages` hypothesis reflects the CLI bound (default 50):
with `max_pages = 0` the loop guard fails before the first dequeue. -/
theorem crawl_depth_and_pages_bounds (web : String → Except String PageContent)
    (cfg : ScrapeCfg) (seed : String) (hpages : 0 < cfg.maxPages) :
    (cfg.maxDepth = 0 →
      (scrapeCrawl web cfg seed).visited = [seed] ∧
        (scrapeCrawl web cfg seed).enqueued = []) ∧
    (cfg.maxPages = 1 → (scrapeCrawl web cfg seed).fetchLog = [seed]) := by
  rw [scrapeCrawl_first_step web cfg seed hpages]
  rcases hw : web seed with e | c
  · dsimp only
    rw [crawlLoop_nil _ _ _ _ rfl]
    exact ⟨fun _ => ⟨rfl, rfl⟩, fun _ => rfl⟩
  · dsimp only
    constructor
    · intro hd
      rw [crawlLoop_nil _ _ _ _ (by simp [visitPage, newFrontier, hd])]
      refine ⟨by simp [visitPage], by simp [visitPage, newFrontier, hd]⟩
    · intro hone
      rw [crawlLoop_stop _ _ _ _ (by simp [visitPage, hone])]
      simp [visitPage]

def webDown : String → Except String PageContent := fun _ => Except.error "down"

def cfgDepth0Pages1 : ScrapeCfg :=
  { maxDepth := 0, maxPages := 1, includeSubdomains := false, internalOnly := false
    externalOnly := false, subdomainsOnly := false, extensions := none
    filterTypes := none, uniqueOnly := true }

theorem crawl_depth_and_pages_bounds_witness :
    (scrapeCrawl webDown cfgDepth0Pages1 "https://s.com/").visited = ["https://s.com/"] ∧
      (scrapeCrawl webDown cfgDepth0Pages1 "https://s.com/").enqueued = [] ∧
      (scrapeCrawl webDown cfgDepth0Pages1 "https://s.com/").fetchLog = ["https://s.com/"] := by
  have h := crawl_depth_and_pages_bounds webDown cfgDepth0Pages1 "https://s.com/"
    (by decide)
  exact ⟨(h.1 rfl).1, (h.1 rfl).2, h.2 rfl⟩

theorem filter_by_extensions_mem {links : List Link} {fs : List String} {l : Link}
    (h : l ∈ filter_by_extensions links fs) : l ∈ links :=
  (List.mem_filter.mp h).1

theorem filter_by_types_mem {links : List Link} {fs : List String} {l : Link}
    (h : l ∈ filter_by_types links fs) : l ∈ links :=
  (List.mem_filter.mp h).1

theorem filter_links_mem {links : List Link} {a b c : Bool} {ex ft : Option String}
    {uo : Bool} {el : Option (List Link)} {l : Link}
    (h : l ∈ filter_links links a b c ex ft uo el) : l ∈ links := by
  simp only [filter_links] at h
  split_ifs at h <;>
  · repeat
      first
        | replace h := filter_by_types_mem h
        | replace h := filter_by_extensions_mem h
        | replace h := (List.mem_filter.mp h).1
    exact h

theorem extract_found_on_page {elems : List Anchor} {fallbackHrefs : List String}
    {cur base : String} {inc : Bool} {l : Link}
    (hl : l ∈ extract_links_from_page elems fallbackHrefs cur base inc) :
    l.found_on_page = cur := by
  obtain ⟨⟨k, v⟩, hkv, hmk⟩ := List.mem_filterMap.mp hl
  exact (mkLink_inv hmk).2.2.2.2.1

/-- Invariant tying a crawl state to the web it was produced from: every
fetched URL was marked visited first, no URL is fetched twice, every fetch
failure is recorded in `failures`, and page records and links come only from
successfully fetched pages. -/
def CrawlInv (web : String → Except String PageContent) (st : CrawlState) : Prop :=
  (∀ v ∈ st.fetchLog, v ∈ st.visited) ∧
  st.fetchLog.Nodup ∧
  (∀ v e, web v = .error e → v ∈ st.fetchLog → (v, e) ∈ st.failures) ∧
  (∀ pd ∈ st.allPages, ∃ c, web pd.url = .ok c) ∧
  (∀ l ∈ st.allLinks, ∃ c, web l.found_on_page = .ok c)

theorem crawlLoop_cons (web : String → Except String PageContent) (cfg : ScrapeCfg)
    (base : String) (st : CrawlState) (u : String) (d : Nat)
    (rest : List (String × Nat)) (hx : st.toVisit = (u, d) :: rest) :
    crawlLoop web cfg base st =
      if st.visited.length < cfg.maxPages then
        if u ∈ st.visited || d > cfg.maxDepth then
          crawlLoop web cfg base { st with toVisit := rest }
        else
          let st1 :=
            { st with
                toVisit := rest
                visited := st.visited ++ [u]
                totalPagesCrawled := st.totalPagesCrawled + 1
                fetchLog := st.fetchLog ++ [u] }
          match web u with
          | .error e =>
            crawlLoop web cfg base { st1 with failures := st1.failures ++ [(u, e)] }
          | .ok content => crawlLoop web cfg base (visitPage cfg base st1 u d rest content)
      else st := by
  rw [crawlLoop.eq_def]
  split
  next heq => rw [hx] at heq; cases heq
  next u' d' rest' heq =>
    rw [hx] at heq
    injection heq with h1 h2
    injection h1 with hu hd
    subst hu
    subst hd
    subst h2
    rfl

theorem crawlLoop_inv (web : String → Except String PageContent) (cfg : ScrapeCfg)
    (base : String) (st : CrawlState) (h : CrawlInv web st) :
    CrawlInv web (crawlLoop web cfg base st) := by
  revert h
  induction st using crawlLoop.induct web cfg base with
  | case1 x hx =>
    intro h
    rw [crawlLoop_nil _ _ _ _ hx]
    exact h
  | case2 x u d rest hx hlen hskip ih =>
    intro h
    rw [crawlLoop_cons web cfg base x u d rest hx, if_pos hlen, if_pos hskip]
    exact ih h
  | case3 x u d rest hx hlen hskip st1 e heq ih =>
    intro h
    obtain ⟨h1, h2, h3, h4, h5⟩ := h
    have hu : u ∉ x.visited := by
      intro hmem
      exact hskip (by simp [hmem])
    rw [crawlLoop_cons web cfg base x u d rest hx, if_pos hlen, if_neg hskip]
    simp only [heq]
    refine ih ⟨?_, ?_, ?_, h4, h5⟩
    · intro v hv
      rcases List.mem_append.mp hv with hv | hv
      · exact List.mem_append_left _ (h1 v hv)
      · exact List.mem_append_right _ hv
    · rw [List.nodup_append]
      refine ⟨h2, List.nodup_singleton u, ?_⟩
      intro v hv hveq
      rw [List.mem_singleton] at hveq
      subst hveq
      exact hu (h1 v hv)
    · intro v e' hv hvmem
      rcases List.mem_append.mp hvmem with hm | hm
      · exact List.mem_append_left _ (h3 v e' hv hm)
      · rw [List.mem_singleton] at hm
        subst hm
        rw [heq] at hv
        injection hv with hv
        subst hv
        exact List.mem_append_right _ (List.mem_singleton_self _)
  | case4 x u d rest hx hlen hskip st1 content heq ih =>
    intro h
    obtain ⟨h1, h2, h3, h4, h5⟩ := h
    have hu : u ∉ x.visited := by
      intro hmem
      exact hskip (by simp [hmem])
    rw [crawlLoop_cons web cfg base x u d rest hx, if_pos hlen, if_neg hskip]
    simp only [heq]
    refine ih ⟨?_, ?_, ?_, ?_, ?_⟩ <;> simp only [visitPage]
    · intro v hv
      rcases List.mem_append.mp hv with hv | hv
      · exact List.mem_append_left _ (h1 v hv)
      · exact List.mem_append_right _ hv
    · rw [List.nodup_append]
      refine ⟨h2, List.nodup_singleton u, ?_⟩
      intro v hv hveq
      rw [List.mem_singleton] at hveq
      subst hveq
      exact hu (h1 v hv)
    · intro v e' hv hvmem
      rcases List.mem_append.mp hvmem with hm | hm
      · exact h3 v e' hv hm
      · rw [List.mem_singleton] at hm
        subst hm
        rw [heq] at hv
        cases hv
    · intro pd hpd
      rcases List.mem_append.mp hpd with hm | hm
      · exact h4 pd hm
      · rw [List.mem_singleton] at hm
        subst hm
        exact ⟨content, heq⟩
    · intro l hl
      rcases List.mem_append.mp hl with hm | hm
      · exact h5 l hm
      · have hpl := filter_links_mem hm
        rw [extract_found_on_page hpl]
        exact ⟨content, heq⟩
  | case5 x u d rest hx hlen =>
    intro h
    rw [crawlLoop_stop _ _ _ _ (by omega)]
    exact h

theorem dedupByUrl_mem_aux (links : List Link) (acc : List String × List Link)
    (l : Link)
    (h : l ∈ (links.foldl
        (fun (acc : List String × List Link) link =>
          if acc.1.contains link.url then acc else (acc.1 ++ [link.url], acc.2 ++ [link]))
        acc).2) :
    l ∈ acc.2 ∨ l ∈ links := by
  induction links generalizing acc with
  | nil => exact Or.inl h
  | cons a rest ih =>
    simp only [List.foldl_cons] at h
    rcases ih _ h with hacc | hrest
    · by_cases hc : acc.1.contains a.url
      · rw [if_pos hc] at hacc
        exact Or.inl hacc
      · rw [if_neg hc] at hacc
        rcases List.mem_append.mp hacc with hm | hm
        · exact Or.inl hm
        · rw [List.mem_singleton] at hm
          exact Or.inr (List.mem_cons.mpr (Or.inl hm))
    · exact Or.inr (List.mem_cons.mpr (Or.inr hrest))

theorem dedupByUrl_mem {links : List Link} {l : Link} (h : l ∈ dedupByUrl links) :
    l ∈ links := by
  rcases dedupByUrl_mem_aux links ([], []) l h with hacc | hm
  · cases hacc
  · exact hm

theorem scrapeRun_proj (web : String → Except String PageContent) (cfg : ScrapeCfg)
    (seed : String) :
    (scrapeRun web cfg seed).fetchLog = (scrapeCrawl web cfg seed).fetchLog ∧
      (scrapeRun web cfg seed).visited = (scrapeCrawl web cfg seed).visited ∧
      (scrapeRun web cfg seed).failures = (scrapeCrawl web cfg seed).failures ∧
      (scrapeRun web cfg seed).allPages = (scrapeCrawl web cfg seed).allPages := by
  unfold scrapeRun
  split_ifs <;> exact ⟨rfl, rfl, rfl, rfl⟩

theorem scrapeRun_links_mem {web : String → Except String PageContent}
    {cfg : ScrapeCfg} {seed : String} {l : Link}
    (h : l ∈ (scrapeRun web cfg seed).allLinks) :
    l ∈ (scrapeCrawl web cfg seed).allLinks := by
  unfold scrapeRun at h
  split_ifs at h
  · exact dedupByUrl_mem h
  · exact h

/-- C8.  If fetching a frontier URL fails, the crawl records the failure and
continues: the failed URL is in the visited set, the failure (with its
message) is recorded, the failed page contributes no page record and no
links to the results, and the URL is fetched exactly once in the run (no
retry) — indeed every URL is fetched at most once. -/
theorem failed_fetch_recorded (web : String → Except String PageContent)
    (cfg : ScrapeCfg) (seed u e : String)
    (hweb : web u = Except.error e)
    (hfet : u ∈ (scrapeRun web cfg seed).fetchLog) :
    u ∈ (scrapeRun web cfg seed).visited ∧
      (u, e) ∈ (scrapeRun web cfg seed).failures ∧
      (∀ pd ∈ (scrapeRun web cfg seed).allPages, pd.url ≠ u) ∧
      (∀ l ∈ (scrapeRun web cfg seed).allLinks, l.found_on_page ≠ u) ∧
      (scrapeRun web cfg seed).fetchLog.count u = 1 := by
  have hinv : CrawlInv web (scrapeCrawl web cfg seed) := by
    refine crawlLoop_inv web cfg _ _ ⟨?_, ?_, ?_, ?_, ?_⟩
    · intro v hv
      cases hv
    · exact List.nodup_nil
    · intro v e' _ hv
      cases hv
    · intro pd hpd
      cases hpd
    · intro l hl
      cases hl
  obtain ⟨h1, h2, h3, h4, h5⟩ := hinv
  obtain ⟨hpf, hpv, hpfail, hppages⟩ := scrapeRun_proj web cfg seed
  rw [hpf] at hfet
  refine ⟨?_, ?_, ?_, ?_, ?_⟩
  · rw [hpv]
    exact h1 u hfet
  · rw [hpfail]
    exact h3 u e hweb hfet
  · rw [hppages]
    intro pd hpd hurl
    obtain ⟨c, hc⟩ := h4 pd hpd
    rw [hurl, hweb] at hc
    cases hc
  · intro l hl hfound
    obtain ⟨c, hc⟩ := h5 l (scrapeRun_links_mem hl)
    rw [hfound, hweb] at hc
    cases hc
  · rw [hpf]
    exact List.count_eq_one_of_mem h2 hfet

theorem failed_fetch_recorded_witness :
    "https://s.com/" ∈ (scrapeRun webDown cfgDepth0Pages1 "https://s.com/").visited ∧
      ("https://s.com/", "down") ∈
        (scrapeRun webDown cfgDepth0Pages1 "https://s.com/").failures ∧
      (∀ pd ∈ (scrapeRun webDown cfgDepth0Pages1 "https://s.com/").allPages,
        pd.url ≠ "https://s.com/") ∧
      (∀ l ∈ (scrapeRun webDown cfgDepth0Pages1 "https://s.com/").allLinks,
        l.found_on_page ≠ "https://s.com/") ∧
      (scrapeRun webDown cfgDepth0Pages1 "https://s.com/").fetchLog.count
        "https://s.com/" = 1 := by
  refine failed_fetch_recorded webDown cfgDepth0Pages1 "https://s.com/" "https://s.com/"
    "down" rfl ?_
  have h : scrapeCrawl webDown cfgDepth0Pages1 "https://s.com/" =
      { toVisit := [], visited := ["https://s.com/"], allPages := [], allLinks := []
        totalPagesCrawled := 1, totalLinksFound := 0, filesFound := []
        fetchLog := ["https://s.com/"], failures := [("https://s.com/", "down")]
        enqueued := [] } := by
    unfold scrapeCrawl
    rw [crawlLoop.eq_def]
    norm_num [cfgDepth0Pages1, webDown]
    rw [crawlLoop.eq_def]
  unfold scrapeRun
  rw [h]
  simp [cfgDepth0Pages1, dedupByUrl]

end ScrapeThis
